import Mathlib

/-!
Shallow embedding of the brickroll translator (a brainfuck-to-Rickroll
compiler).  Namespace `Compiler` models `src/compiler.rs`; namespace
`MainSrc` models the self-contained variant in `src/main.rs`.
Machine integers of the source (`u8` byte values, the `i64` indent and
nesting level) are modelled as `Nat`/`Int`; the renderer's only failure
paths (the nesting checks) are modelled with `Except`.
-/

set_option maxRecDepth 4000

namespace Compiler

/-- Variables of the emitted program (`enum Var` in compiler.rs). -/
inductive Var
| zero
| pointer
| tape
| temp
| buffer
deriving DecidableEq

/-- Display of `Var` (its `fmt::Display` impl). -/
def Var.toStr : Var → String
| Var.pointer => "Pointer"
| Var.tape => "Tape"
| Var.temp => "Temp"
| Var.buffer => "Buffer"
| Var.zero => "Zero"

/-- Literals (`enum Literal`): a character, an unsigned byte (`u8`,
modelled as `Nat`), or the empty-array marker. -/
inductive Literal
| char (c : Char)
| int (i : Nat)
| emptyArray
deriving DecidableEq

/-- Display of `Literal`: bytes as decimal, characters quoted with the
three escape cases (newline, quote, backslash), empty array as `ARRAY`. -/
def Literal.toStr : Literal → String
| Literal.int i => toString i
| Literal.char c =>
    if c = '\n' then "'\\n'"
    else if c = '\'' then "'\\''"
    else if c = '\\' then "'\\\\'"
    else "'" ++ String.mk [c] ++ "'"
| Literal.emptyArray => "ARRAY"

/-- Expressions (`enum Expr`). -/
inductive Expr
| inc (v : Var)
| dec (v : Var)
| arrayAccess (a i : Var)
| isEqualLiteral (v : Var) (l : Literal)
| isEqualVar (v v2 : Var)
| isNotEqualLiteral (v : Var) (l : Literal)
| literal (l : Literal)
deriving DecidableEq

/-- Display of `Expr`. -/
def Expr.toStr : Expr → String
| Expr.inc v => v.toStr ++ " + 1"
| Expr.dec v => v.toStr ++ " - 1"
| Expr.arrayAccess a i => a.toStr ++ " : " ++ i.toStr
| Expr.isEqualLiteral v l => v.toStr ++ " == " ++ l.toStr
| Expr.isNotEqualLiteral v l => v.toStr ++ " != " ++ l.toStr
| Expr.isEqualVar v v2 => v.toStr ++ " == " ++ v2.toStr
| Expr.literal l => l.toStr

/-- Library routines (`enum Function` of compiler.rs; named `Func` because
`Function` is taken by the library). -/
inductive Func
| arrayReplace (a b c : Var)
| arrayPush (a b c : Var)
| arrayPop (a b : Var)
| arrayLength (v : Var)
| charToInt (v : Var)
| intToChar (v : Var)
| putChar (v : Var)
| readLine
deriving DecidableEq

/-- Routine name (`Function::name`). -/
def Func.name : Func → String
| Func.arrayReplace _ _ _ => "ArrayReplace"
| Func.arrayPush _ _ _ => "ArrayPush"
| Func.arrayPop _ _ => "ArrayPop"
| Func.charToInt _ => "CharToInt"
| Func.intToChar _ => "IntToChar"
| Func.putChar _ => "PutChar"
| Func.arrayLength _ => "ArrayLength"
| Func.readLine => "ReadLine"

/-- Rendered argument list (`Function::args`). -/
def Func.args : Func → String
| Func.arrayReplace a b c => a.toStr ++ ", " ++ b.toStr ++ ", " ++ c.toStr
| Func.arrayPush a b c => a.toStr ++ ", " ++ b.toStr ++ ", " ++ c.toStr
| Func.arrayPop a b => a.toStr ++ ", " ++ b.toStr
| Func.charToInt v => v.toStr
| Func.intToChar v => v.toStr
| Func.putChar v => v.toStr
| Func.arrayLength v => v.toStr
| Func.readLine => "you"

/-- Number of argument slots of each routine, read off the fields of the
corresponding `Function` variant (which `Function::args` renders
comma-separated). -/
def Func.arity : Func → Nat
| Func.arrayReplace _ _ _ => 3
| Func.arrayPush _ _ _ => 3
| Func.arrayPop _ _ => 2
| Func.charToInt _ => 1
| Func.intToChar _ => 1
| Func.putChar _ => 1
| Func.arrayLength _ => 1
| Func.readLine => 0

/-- IR commands (`enum Cmd` of compiler.rs). -/
inductive Cmd
| declareVar (v : Var)
| declareFn (f : Func)
| ret (e : Expr)
| declareChorus
| assign (v : Var) (e : Expr)
| call (f : Func) (v : Var)
| callNoReturn (f : Func)
| startCond (e : Expr)
| endIf
| endWhile
deriving DecidableEq

/-- Error type of the renderer (`enum CompilerError`). -/
inductive CompilerError
| formatError
| unbalancedBrackets
deriving DecidableEq

/-- Characters covered by the lookup tables:
`iter::once('\n').chain(' '..='~')`. -/
def tableChars : List Char :=
'\n' :: (List.range 95).map (fun i => Char.ofNat (32 + i))

/-- Byte values covered by the lookup tables:
`iter::once(b'\n').chain(b' '..=b'~')`. -/
def tableBytes : List Nat :=
10 :: (List.range 95).map (fun i => 32 + i)

/-- Commands pushed by `Compiler::define_char_to_int`: the char-to-byte
routine — for each table character a conditional returning `c as u8`,
then the unconditional fallback `Return 0`. -/
def defineCharToInt : List Cmd :=
Cmd.declareFn (Func.charToInt Var.temp) ::
  (tableChars.flatMap (fun c =>
    [Cmd.startCond (Expr.isEqualLiteral Var.temp (Literal.char c)),
     Cmd.ret (Expr.literal (Literal.int (c.toNat % 256))),
     Cmd.endIf]))
  ++ [Cmd.ret (Expr.literal (Literal.int 0))]

/-- Commands pushed by `Compiler::define_int_to_char`: the byte-to-char
routine — for each table byte a conditional returning `i as char`, then
the unconditional fallback `Return '$'`. -/
def defineIntToChar : List Cmd :=
Cmd.declareFn (Func.intToChar Var.temp) ::
  (tableBytes.flatMap (fun i =>
    [Cmd.startCond (Expr.isEqualLiteral Var.temp (Literal.int i)),
     Cmd.ret (Expr.literal (Literal.char (Char.ofNat i))),
     Cmd.endIf]))
  ++ [Cmd.ret (Expr.literal (Literal.char '$'))]

/-- Commands pushed by `Compiler::init_vars`. -/
def initVars : List Cmd :=
[Cmd.declareVar Var.zero,
 Cmd.declareVar Var.tape,
 Cmd.declareVar Var.temp,
 Cmd.declareVar Var.buffer,
 Cmd.declareVar Var.pointer,
 Cmd.assign Var.zero (Expr.literal (Literal.int 0)),
 Cmd.assign Var.tape (Expr.literal Literal.emptyArray),
 Cmd.call (Func.arrayPush Var.tape Var.zero Var.zero) Var.tape,
 Cmd.assign Var.temp (Expr.literal (Literal.int 0)),
 Cmd.assign Var.buffer (Expr.literal Literal.emptyArray),
 Cmd.assign Var.pointer (Expr.literal (Literal.int 0))]

/-- Commands pushed by `Compiler::inc_pointer` (source symbol `>`). -/
def incPointerCmds : List Cmd :=
[Cmd.assign Var.pointer (Expr.inc Var.pointer),
 Cmd.call (Func.arrayLength Var.tape) Var.temp,
 Cmd.startCond (Expr.isEqualVar Var.pointer Var.temp),
 Cmd.call (Func.arrayPush Var.tape Var.temp Var.zero) Var.tape,
 Cmd.endIf]

/-- Commands pushed by `Compiler::dec_pointer` (source symbol `<`). -/
def decPointerCmds : List Cmd :=
[Cmd.assign Var.pointer (Expr.dec Var.pointer)]

/-- Commands pushed by `Compiler::inc_data` (source symbol `+`). -/
def incDataCmds : List Cmd :=
[Cmd.assign Var.temp (Expr.arrayAccess Var.tape Var.pointer),
 Cmd.assign Var.temp (Expr.inc Var.temp),
 Cmd.call (Func.arrayReplace Var.tape Var.pointer Var.temp) Var.tape]

/-- Commands pushed by `Compiler::dec_data` (source symbol `-`). -/
def decDataCmds : List Cmd :=
[Cmd.assign Var.temp (Expr.arrayAccess Var.tape Var.pointer),
 Cmd.assign Var.temp (Expr.dec Var.temp),
 Cmd.call (Func.arrayReplace Var.tape Var.pointer Var.temp) Var.tape]

/-- Commands pushed by `Compiler::output_byte` (source symbol `.`). -/
def outputByteCmds : List Cmd :=
[Cmd.assign Var.temp (Expr.arrayAccess Var.tape Var.pointer),
 Cmd.call (Func.intToChar Var.temp) Var.temp,
 Cmd.callNoReturn (Func.putChar Var.temp)]

/-- Commands pushed by `Compiler::read_byte` (source symbol `,`). -/
def readByteCmds : List Cmd :=
[Cmd.call (Func.arrayLength Var.buffer) Var.temp,
 Cmd.startCond (Expr.isEqualLiteral Var.temp (Literal.int 0)),
 Cmd.call Func.readLine Var.buffer,
 Cmd.endIf,
 Cmd.assign Var.temp (Expr.arrayAccess Var.buffer Var.zero),
 Cmd.call (Func.arrayPop Var.buffer Var.zero) Var.buffer,
 Cmd.call (Func.charToInt Var.temp) Var.temp,
 Cmd.call (Func.arrayReplace Var.tape Var.pointer Var.temp) Var.tape]

/-- Commands pushed by `Compiler::cond_jump` (source symbol `[`). -/
def condJumpCmds : List Cmd :=
[Cmd.assign Var.temp (Expr.arrayAccess Var.tape Var.pointer),
 Cmd.startCond (Expr.isNotEqualLiteral Var.temp (Literal.int 0))]

/-- Commands pushed by `Compiler::cond_jump_end` (source symbol `]`). -/
def condJumpEndCmds : List Cmd :=
[Cmd.endWhile]

/-- Per-character dispatch of the loop in `Compiler::read`; unrecognized
characters push nothing. -/
def lowerChar (c : Char) : List Cmd :=
if c = '>' then incPointerCmds
else if c = '<' then decPointerCmds
else if c = '+' then incDataCmds
else if c = '-' then decDataCmds
else if c = '.' then outputByteCmds
else if c = ',' then readByteCmds
else if c = '[' then condJumpCmds
else if c = ']' then condJumpEndCmds
else []

/-- Fixed preamble of `Compiler::read`: table definitions, the chorus
marker, and the variable initializations, in source order. -/
def preambleCmds : List Cmd :=
defineCharToInt ++ defineIntToChar ++ [Cmd.declareChorus] ++ initVars

/-- Loop of `Compiler::read`: append each character's commands in order. -/
def readLoop : List Cmd → List Char → List Cmd
| cmds, [] => cmds
| cmds, c :: cs => readLoop (cmds ++ lowerChar c) cs

/-- Model of `Compiler::read` (the lowering entry point `lower`): emit the
fixed preamble, then translate the program character by character. -/
def read (program : List Char) : List Cmd :=
readLoop preambleCmds program

/-- Indentation emitted by the renderer's `for _ in 0..level * indent`
loop: that Rust range is empty whenever `level * indent <= 0`, which
`Int.toNat` captures. -/
def indentSpaces (level : Nat) (indent : Int) : String :=
String.mk (List.replicate ((level * indent).toNat) ' ')

/-- Optional trace-comment line emitted before a command when trace mode
is on and the chorus has begun (`Never gonna say {ln}`). -/
def tracePre (trace inChorus : Bool) (level : Nat) (indent : Int) (ln : Nat) : List String :=
if trace && inChorus then [indentSpaces level indent ++ "Never gonna say " ++ toString ln] else []

/-- Body of `Compiler::output` as a line-producing recursion.  State:
remaining commands, the enumerate index `ln`, the nesting `level` (an
`i64` in the source, but kept non-negative by the zero check, hence
`Nat`), and the `in_chorus` flag.  Each `writeln!` of the source yields
one list entry; the second line of `DeclareFn` carries no indentation,
exactly as in the source. -/
def outputAux (indent : Int) (trace : Bool) : List Cmd → Nat → Nat → Bool → Except CompilerError (List String)
| [], _, level, _ =>
    if level = 0 then Except.ok [] else Except.error CompilerError.unbalancedBrackets
| Cmd.declareVar v :: cs, ln, level, inCh =>
    (outputAux indent trace cs (ln + 1) level inCh).map (fun rest =>
      tracePre trace inCh level indent ln ++
      [indentSpaces level indent ++ "Never gonna let " ++ v.toStr ++ " down"] ++ rest)
| Cmd.declareFn f :: cs, ln, level, inCh =>
    (outputAux indent trace cs (ln + 1) level inCh).map (fun rest =>
      tracePre trace inCh level indent ln ++
      [indentSpaces level indent ++ "[Verse " ++ f.name ++ "]",
       "(Ooh give you " ++ f.args ++ ")"] ++ rest)
| Cmd.ret e :: cs, ln, level, inCh =>
    (outputAux indent trace cs (ln + 1) level inCh).map (fun rest =>
      tracePre trace inCh level indent ln ++
      [indentSpaces level indent ++ "(Ooh) Never gonna give, never gonna give (give you " ++ e.toStr ++ ")"] ++ rest)
| Cmd.declareChorus :: cs, ln, level, inCh =>
    (outputAux indent trace cs (ln + 1) level true).map (fun rest =>
      tracePre trace inCh level indent ln ++
      [indentSpaces level indent ++ "[Chorus]"] ++ rest)
| Cmd.assign v e :: cs, ln, level, inCh =>
    (outputAux indent trace cs (ln + 1) level inCh).map (fun rest =>
      tracePre trace inCh level indent ln ++
      [indentSpaces level indent ++ "Never gonna give " ++ v.toStr ++ " " ++ e.toStr] ++ rest)
| Cmd.call f v :: cs, ln, level, inCh =>
    (outputAux indent trace cs (ln + 1) level inCh).map (fun rest =>
      tracePre trace inCh level indent ln ++
      [indentSpaces level indent ++ "(Ooh give you " ++ v.toStr ++ ") " ++
        "Never gonna run " ++ f.name ++ " and desert " ++ f.args] ++ rest)
| Cmd.callNoReturn f :: cs, ln, level, inCh =>
    (outputAux indent trace cs (ln + 1) level inCh).map (fun rest =>
      tracePre trace inCh level indent ln ++
      [indentSpaces level indent ++ "Never gonna run " ++ f.name ++ " and desert " ++ f.args] ++ rest)
| Cmd.startCond e :: cs, ln, level, inCh =>
    (outputAux indent trace cs (ln + 1) (level + 1) inCh).map (fun rest =>
      tracePre trace inCh level indent ln ++
      [indentSpaces level indent ++ "Inside we both know " ++ e.toStr] ++ rest)
| Cmd.endIf :: cs, ln, level, inCh =>
    if level = 0 then Except.error CompilerError.unbalancedBrackets
    else
      (outputAux indent trace cs (ln + 1) (level - 1) inCh).map (fun rest =>
        tracePre trace inCh (level - 1) indent ln ++
        [indentSpaces (level - 1) indent ++ "Your heart's been aching but you're too shy to say it"] ++ rest)
| Cmd.endWhile :: cs, ln, level, inCh =>
    if level = 0 then Except.error CompilerError.unbalancedBrackets
    else
      (outputAux indent trace cs (ln + 1) (level - 1) inCh).map (fun rest =>
        tracePre trace inCh (level - 1) indent ln ++
        [indentSpaces (level - 1) indent ++ "We know the game and we're gonna play it"] ++ rest)

/-- Join rendered lines, each terminated by a newline, into the final
string exactly as the successive `writeln!` calls build `res`. -/
def joinLines : List String → String
| [] => ""
| l :: ls => l ++ "\n" ++ joinLines ls

/-- Model of `Compiler::output`: render the command list with the given
indent width and trace flag, failing with `UnbalancedBrackets` on a
close at depth zero or a nonzero final depth. -/
def output (cmds : List Cmd) (indent : Int) (trace : Bool) : Except CompilerError String :=
(outputAux indent trace cmds 0 0 false).map joinLines

/-- Nesting-depth scan of a command list, abstracting the renderer's
level bookkeeping: `none` means a close was met at depth zero. -/
def scanLevel : List Cmd → Nat → Option Nat
| [], l => some l
| Cmd.endIf :: cs, l => if l = 0 then none else scanLevel cs (l - 1)
| Cmd.endWhile :: cs, l => if l = 0 then none else scanLevel cs (l - 1)
| Cmd.startCond _ :: cs, l => scanLevel cs (l + 1)
| _ :: cs, l => scanLevel cs l

/-- Bracket scan of a source text: `[` opens, `]` closes, `none` on a
close before any matching open. -/
def brScan : List Char → Nat → Option Nat
| [], l => some l
| c :: cs, l =>
    if c = '[' then brScan cs (l + 1)
    else if c = ']' then (if l = 0 then none else brScan cs (l - 1))
    else brScan cs l

/-- Balanced brackets of a source text: the scan ends at depth zero with
no premature close. -/
def balanced (p : List Char) : Prop :=
brScan p 0 = some 0

/-- Interpreter for the straight-line shape that the two table-defining
methods emit (a header, a run of `if Temp == lit then return r end-if`
triples, and trailing unconditional returns): evaluate the routine on the
input value held in `Temp`. -/
def evalTable : List Cmd → Literal → Option Literal
| Cmd.declareFn _ :: rest, x => evalTable rest x
| Cmd.startCond (Expr.isEqualLiteral _ lit) :: Cmd.ret (Expr.literal r) :: Cmd.endIf :: rest, x =>
    if lit = x then some r else evalTable rest x
| Cmd.ret (Expr.literal r) :: _, _ => some r
| _, _ => none

/-- Function payload of a call command, if any. -/
def cmdFunc : Cmd → Option Func
| Cmd.call f _ => some f
| Cmd.callNoReturn f => some f
| _ => none

/-- Fixed arity of each routine name, as the spec's data model assigns
arities per named library operation (with push-element at its actual
three slots). -/
def nameArity (s : String) : Nat :=
if s = "ArrayReplace" then 3
else if s = "ArrayPush" then 3
else if s = "ArrayPop" then 2
else if s = "ReadLine" then 0
else 1

/-- Check of one command: if it calls a routine, the routine's arity is
the fixed arity of its name. -/
def arityOk (c : Cmd) : Bool :=
match cmdFunc c with
| some f => f.arity = nameArity f.name
| none => true

/-- Recognizer for the renderer trace-comment lines: after discarding
leading indentation spaces, the line starts with the fixed prefix of the
`Never gonna say` comment that trace mode inserts. -/
def isTraceLine (l : String) : Bool :=
"Never gonna say ".data.isPrefixOf (l.data.dropWhile (fun a => a = ' '))

/-- Removal of trace-comment lines from rendered text, character by
character: `buf` holds the current line read so far, reversed; at each
newline the finished line is kept or dropped by `isTraceLine`. -/
def removeTraceAux : List Char → List Char → List Char
| buf, [] => if isTraceLine (String.mk buf.reverse) then [] else buf.reverse
| buf, '\n' :: cs =>
    (if isTraceLine (String.mk buf.reverse) then [] else buf.reverse ++ ['\n']) ++
      removeTraceAux [] cs
| buf, c :: cs => removeTraceAux (c :: buf) cs

/-- Rendered text with all trace-comment lines removed. -/
def removeTraceLines (s : String) : String :=
String.mk (removeTraceAux [] s.data)

/-- Absence of the newline character in a string (every rendered line
satisfies this, making line removal well defined). -/
def noNL (s : String) : Prop :=
'\n' ∉ s.data

end Compiler

namespace MainSrc

/-- Variables of the emitted program (`enum Var` in main.rs). -/
inductive Var
| zero
| pointer
| tape
| temp
| buffer
deriving DecidableEq

/-- Display of the main.rs `Var`. -/
def Var.toStr : Var → String
| Var.pointer => "Pointer"
| Var.tape => "Tape"
| Var.temp => "Temp"
| Var.buffer => "Buffer"
| Var.zero => "Zero"

/-- Expressions of main.rs (`enum Expr`): no literals beyond `0` and
`ARRAY`, and only an is-zero test. -/
inductive Expr
| inc (v : Var)
| dec (v : Var)
| arrayAccess (a i : Var)
| isZero (v : Var)
| zero
| emptyArray
deriving DecidableEq

/-- Display of the main.rs `Expr`. -/
def Expr.toStr : Expr → String
| Expr.inc v => v.toStr ++ " + 1"
| Expr.dec v => v.toStr ++ " - 1"
| Expr.arrayAccess a i => a.toStr ++ " : " ++ i.toStr
| Expr.isZero v => v.toStr ++ " == 0"
| Expr.zero => "0"
| Expr.emptyArray => "ARRAY"

/-- Library routines of main.rs (`enum Function`; note: no ArrayPush). -/
inductive Func
| arrayReplace (a b c : Var)
| arrayPop (a b : Var)
| arrayLength (v : Var)
| charToInt (v : Var)
| intToChar (v : Var)
| putChar (v : Var)
| readLine
deriving DecidableEq

/-- Routine name (`Function::name` in main.rs). -/
def Func.name : Func → String
| Func.arrayReplace _ _ _ => "ArrayReplace"
| Func.arrayPop _ _ => "ArrayPop"
| Func.charToInt _ => "CharToInt"
| Func.intToChar _ => "IntToChar"
| Func.putChar _ => "PutChar"
| Func.arrayLength _ => "ArrayLength"
| Func.readLine => "ReadLine"

/-- Rendered argument list (`Function::args` in main.rs). -/
def Func.args : Func → String
| Func.arrayReplace a b c => a.toStr ++ ", " ++ b.toStr ++ ", " ++ c.toStr
| Func.arrayPop a b => a.toStr ++ ", " ++ b.toStr
| Func.charToInt v => v.toStr
| Func.intToChar v => v.toStr
| Func.putChar v => v.toStr
| Func.arrayLength v => v.toStr
| Func.readLine => "hello"

/-- IR commands of main.rs (`enum Cmd`; `If` is called `cond` here). -/
inductive Cmd
| declare (v : Var)
| assign (v : Var) (e : Expr)
| call (f : Func) (v : Var)
| callNoReturn (f : Func)
| cond (e : Expr)
| endIf
deriving DecidableEq

/-- Error type of main.rs: only the formatting failure exists; there is
no UnbalancedBrackets variant. -/
inductive CompilerError
| formatError
deriving DecidableEq

/-- Commands pushed by main.rs `Compiler::init_vars`. -/
def initVars : List Cmd :=
[Cmd.declare Var.zero,
 Cmd.declare Var.tape,
 Cmd.declare Var.temp,
 Cmd.declare Var.buffer,
 Cmd.declare Var.pointer,
 Cmd.assign Var.zero Expr.zero,
 Cmd.assign Var.tape Expr.emptyArray,
 Cmd.assign Var.temp Expr.zero,
 Cmd.assign Var.buffer Expr.emptyArray,
 Cmd.assign Var.pointer Expr.zero]

/-- Per-character dispatch of the loop in main.rs `Compiler::read`. -/
def lowerChar (c : Char) : List Cmd :=
if c = '>' then [Cmd.assign Var.pointer (Expr.inc Var.pointer)]
else if c = '<' then [Cmd.assign Var.pointer (Expr.dec Var.pointer)]
else if c = '+' then
  [Cmd.assign Var.temp (Expr.arrayAccess Var.tape Var.pointer),
   Cmd.assign Var.temp (Expr.inc Var.temp),
   Cmd.call (Func.arrayReplace Var.tape Var.pointer Var.temp) Var.tape]
else if c = '-' then
  [Cmd.assign Var.temp (Expr.arrayAccess Var.tape Var.pointer),
   Cmd.assign Var.temp (Expr.dec Var.temp),
   Cmd.call (Func.arrayReplace Var.tape Var.pointer Var.temp) Var.tape]
else if c = '.' then
  [Cmd.assign Var.temp (Expr.arrayAccess Var.tape Var.pointer),
   Cmd.call (Func.intToChar Var.temp) Var.temp,
   Cmd.callNoReturn (Func.putChar Var.temp)]
else if c = ',' then
  [Cmd.call (Func.arrayLength Var.buffer) Var.temp,
   Cmd.cond (Expr.isZero Var.temp),
   Cmd.call Func.readLine Var.buffer,
   Cmd.endIf,
   Cmd.assign Var.temp (Expr.arrayAccess Var.buffer Var.zero),
   Cmd.call (Func.arrayPop Var.buffer Var.zero) Var.buffer,
   Cmd.call (Func.charToInt Var.temp) Var.temp,
   Cmd.call (Func.arrayReplace Var.tape Var.pointer Var.temp) Var.tape]
else if c = '[' then
  [Cmd.assign Var.temp (Expr.arrayAccess Var.tape Var.pointer),
   Cmd.cond (Expr.isZero Var.temp)]
else if c = ']' then [Cmd.endIf]
else []

/-- Loop of main.rs `Compiler::read`. -/
def readLoop : List Cmd → List Char → List Cmd
| cmds, [] => cmds
| cmds, c :: cs => readLoop (cmds ++ lowerChar c) cs

/-- Model of main.rs `Compiler::read`: only the variable initializations
precede the translated body (no lookup tables in this variant). -/
def read (program : List Char) : List Cmd :=
readLoop initVars program

/-- Single line emitted by main.rs `Compiler::output` for one command
(each match arm writes exactly one line; the `Call` arm's `write!` and
`writeln!` build one line). -/
def cmdLine : Cmd → String
| Cmd.declare v => "Never gonna let " ++ v.toStr ++ " down"
| Cmd.assign v e => "Never gonna give " ++ v.toStr ++ " " ++ e.toStr
| Cmd.call f v => "(Ooh give you " ++ v.toStr ++ ") " ++ "Never gonna run " ++ f.name ++ " and desert " ++ f.args
| Cmd.callNoReturn f => "Never gonna run " ++ f.name ++ " and desert " ++ f.args
| Cmd.cond e => "Inside we both know " ++ e.toStr
| Cmd.endIf => "We know the game and we're gonna play it"

/-- Lines of main.rs `Compiler::output`: the `[Chorus]` header, then one
line per command, in order, with no nesting bookkeeping at all. -/
def outputLines (cmds : List Cmd) : List String :=
"[Chorus]" :: cmds.map cmdLine

/-- Model of main.rs `Compiler::output`: join the lines.  The only error
path of the source is `?` on `writeln!` into a `String`, which cannot
fail, so the result is always `Ok`. -/
def output (cmds : List Cmd) : Except CompilerError String :=
Except.ok (String.join ((outputLines cmds).map (fun l => l ++ "\n")))

end MainSrc

namespace Compiler

lemma isOk_map {ε : Type} {α β : Type} (f : α → β) (x : Except ε α) :
    (x.map f).isOk = x.isOk := by
cases x <;> rfl

lemma readLoop_eq (p : List Char) : ∀ cmds, readLoop cmds p = cmds ++ p.flatMap lowerChar := by
induction p with
| nil => intro cmds; simp [readLoop]
| cons c cs ih => intro cmds; simp [readLoop, ih, List.flatMap_cons, List.append_assoc]

lemma read_eq (p : List Char) : read p = preambleCmds ++ p.flatMap lowerChar :=
readLoop_eq p preambleCmds

lemma scanLevel_append (a : List Cmd) : ∀ (b : List Cmd) (l : Nat),
    scanLevel (a ++ b) l = (scanLevel a l).bind (fun m => scanLevel b m) := by
induction a with
| nil => intro b l; simp [scanLevel]
| cons c cs ih =>
    intro b l
    cases c <;> simp only [List.cons_append, scanLevel] <;>
      first
      | (split <;> simp [ih])
      | simp [ih]

lemma scanLevel_lowerChar (c : Char) (b : List Cmd) (l : Nat) :
    scanLevel (lowerChar c ++ b) l =
      (if c = '[' then scanLevel b (l + 1)
       else if c = ']' then (if l = 0 then none else scanLevel b (l - 1))
       else scanLevel b l) := by
by_cases h1 : c = '>'
· subst h1; simp [lowerChar, incPointerCmds, scanLevel]
· by_cases h2 : c = '<'
  · subst h2; simp [lowerChar, decPointerCmds, scanLevel]
  · by_cases h3 : c = '+'
    · subst h3; simp [lowerChar, incDataCmds, scanLevel]
    · by_cases h4 : c = '-'
      · subst h4; simp [lowerChar, decDataCmds, scanLevel]
      · by_cases h5 : c = '.'
        · subst h5; simp [lowerChar, outputByteCmds, scanLevel]
        · by_cases h6 : c = ','
          · subst h6; simp [lowerChar, readByteCmds, scanLevel]
          · by_cases h7 : c = '['
            · subst h7; simp [lowerChar, condJumpCmds, scanLevel]
            · by_cases h8 : c = ']'
              · subst h8; simp [lowerChar, condJumpEndCmds, scanLevel]
              · simp [lowerChar, h1, h2, h3, h4, h5, h6, h7, h8, scanLevel]

lemma scanLevel_flatMap (p : List Char) : ∀ l, scanLevel (p.flatMap lowerChar) l = brScan p l := by
induction p with
| nil => intro l; simp [scanLevel, brScan]
| cons c cs ih =>
    intro l
    rw [List.flatMap_cons, scanLevel_lowerChar]
    by_cases h1 : c = '['
    · simp [brScan, h1, ih]
    · by_cases h2 : c = ']'
      · simp [brScan, h1, h2, ih]
      · simp [brScan, h1, h2, ih]

lemma scanLevel_preamble : scanLevel preambleCmds 0 = some 0 := by decide

lemma scanLevel_read (p : List Char) : scanLevel (read p) 0 = brScan p 0 := by
rw [read_eq, scanLevel_append, scanLevel_preamble]
simp [scanLevel_flatMap]

lemma outputAux_isOk (indent : Int) (trace : Bool) :
    ∀ (cmds : List Cmd) (ln level : Nat) (inCh : Bool),
      ((outputAux indent trace cmds ln level inCh).isOk = true ↔ scanLevel cmds level = some 0) := by
intro cmds
induction cmds with
| nil =>
    intro ln level inCh
    by_cases h : level = 0 <;> simp [outputAux, scanLevel, h, Except.isOk, Except.toBool]
| cons c cs ih =>
    intro ln level inCh
    cases c
    case endIf =>
      by_cases h : level = 0
      · simp [outputAux, scanLevel, h, Except.isOk, Except.toBool]
      · simp only [outputAux, scanLevel, if_neg h, isOk_map]
        exact ih _ _ _
    case endWhile =>
      by_cases h : level = 0
      · simp [outputAux, scanLevel, h, Except.isOk, Except.toBool]
      · simp only [outputAux, scanLevel, if_neg h, isOk_map]
        exact ih _ _ _
    all_goals
      simp only [outputAux, scanLevel, isOk_map]
      exact ih _ _ _

lemma outputAux_err (indent : Int) (trace : Bool) :
    ∀ (cmds : List Cmd) (ln level : Nat) (inCh : Bool),
      scanLevel cmds level ≠ some 0 →
      outputAux indent trace cmds ln level inCh = Except.error CompilerError.unbalancedBrackets := by
intro cmds
induction cmds with
| nil =>
    intro ln level inCh h
    rw [scanLevel] at h
    simp only [outputAux]
    rw [if_neg (fun h0 => h (by rw [h0]))]
| cons c cs ih =>
    intro ln level inCh h
    cases c
    case endIf =>
      by_cases h0 : level = 0
      · simp only [outputAux, if_pos h0]
      · simp only [scanLevel, if_neg h0] at h
        simp only [outputAux, if_neg h0, ih _ _ _ h, Except.map]
    case endWhile =>
      by_cases h0 : level = 0
      · simp only [outputAux, if_pos h0]
      · simp only [scanLevel, if_neg h0] at h
        simp only [outputAux, if_neg h0, ih _ _ _ h, Except.map]
    all_goals
      simp only [scanLevel] at h
      simp only [outputAux, ih _ _ _ h, Except.map]

lemma output_isOk (cmds : List Cmd) (indent : Int) (trace : Bool) :
    ((output cmds indent trace).isOk = true ↔ scanLevel cmds 0 = some 0) := by
rw [output, isOk_map]; exact outputAux_isOk indent trace cmds 0 0 false

lemma output_err (cmds : List Cmd) (indent : Int) (trace : Bool)
    (h : scanLevel cmds 0 ≠ some 0) :
    output cmds indent trace = Except.error CompilerError.unbalancedBrackets := by
rw [output, outputAux_err indent trace cmds 0 0 false h]; rfl

lemma read_append (xs : List Char) (c : Char) (ys : List Char) :
    read (xs ++ c :: ys) = read xs ++ lowerChar c ++ ys.flatMap lowerChar := by
rw [read_eq, read_eq]
simp [List.flatMap_append, List.flatMap_cons, List.append_assoc]

lemma arityOk_lowerChar (ch : Char) : ∀ c ∈ lowerChar ch, arityOk c = true := by
intro c hc
unfold lowerChar at hc
split at hc
· exact (by decide : ∀ x ∈ incPointerCmds, arityOk x = true) c hc
· split at hc
  · exact (by decide : ∀ x ∈ decPointerCmds, arityOk x = true) c hc
  · split at hc
    · exact (by decide : ∀ x ∈ incDataCmds, arityOk x = true) c hc
    · split at hc
      · exact (by decide : ∀ x ∈ decDataCmds, arityOk x = true) c hc
      · split at hc
        · exact (by decide : ∀ x ∈ outputByteCmds, arityOk x = true) c hc
        · split at hc
          · exact (by decide : ∀ x ∈ readByteCmds, arityOk x = true) c hc
          · split at hc
            · exact (by decide : ∀ x ∈ condJumpCmds, arityOk x = true) c hc
            · split at hc
              · exact (by decide : ∀ x ∈ condJumpEndCmds, arityOk x = true) c hc
              · simp at hc

lemma indentSpaces_eq {indent : Int} (h : indent ≤ 0) :
    ∀ level, indentSpaces level indent = indentSpaces level 0 := by
intro level
unfold indentSpaces
have h1 : (level : Int) * indent ≤ 0 :=
  mul_nonpos_iff.mpr (Or.inl ⟨Int.natCast_nonneg level, h⟩)
rw [Int.toNat_of_nonpos h1]
simp

lemma tracePre_eq {indent : Int} (h : indent ≤ 0) :
    ∀ trace inCh level ln, tracePre trace inCh level indent ln = tracePre trace inCh level 0 ln := by
intro trace inCh level ln
unfold tracePre
rw [indentSpaces_eq h]

lemma outputAux_indent_eq (indent : Int) (h : indent ≤ 0) (trace : Bool) :
    ∀ cmds ln level inCh,
      outputAux indent trace cmds ln level inCh = outputAux 0 trace cmds ln level inCh := by
intro cmds
induction cmds with
| nil => intro ln level inCh; simp [outputAux]
| cons c cs ih =>
    intro ln level inCh
    cases c
    case endIf =>
      by_cases h0 : level = 0 <;>
        simp [outputAux, h0, ih, indentSpaces_eq h, tracePre_eq h]
    case endWhile =>
      by_cases h0 : level = 0 <;>
        simp [outputAux, h0, ih, indentSpaces_eq h, tracePre_eq h]
    all_goals
      simp [outputAux, ih, indentSpaces_eq h, tracePre_eq h]

end Compiler

/-- C2: for every source text, every indent width at least 0 and every
trace flag, rendering the lowered IR succeeds exactly when the source's
square brackets are balanced; on an unmatched close or an unclosed open
it fails with UnbalancedBrackets. -/
theorem claim_C2 (p : List Char) (indent : Int) (trace : Bool) (hind : 0 ≤ indent) :
    ((Compiler.output (Compiler.read p) indent trace).isOk = true ↔ Compiler.balanced p)
    ∧ (¬ Compiler.balanced p →
        Compiler.output (Compiler.read p) indent trace =
          Except.error Compiler.CompilerError.unbalancedBrackets) := by
constructor
· rw [Compiler.output_isOk, Compiler.scanLevel_read]
  exact Iff.rfl
· intro hb
  exact Compiler.output_err _ _ _ (by rw [Compiler.scanLevel_read]; exact hb)

/-- Witness for C2: at the one-character source consisting of a lone
close bracket, with indent 2 and trace on, rendering fails with
UnbalancedBrackets. -/
theorem claim_C2_witness :
    ((0 : Int) ≤ 2) ∧
    Compiler.output (Compiler.read [']']) 2 true =
      Except.error Compiler.CompilerError.unbalancedBrackets :=
⟨by decide, (claim_C2 [']'] 2 true (by decide)).2 (by show ¬(Compiler.brScan [']'] 0 = some 0); decide)⟩

/-- C10: calling the compiler.rs renderer with a negative indent width
returns exactly the same result as with indent width 0, for every IR
list and trace flag: the indentation loop over `0..level*indent` is
empty whenever the product is not positive. -/
theorem claim_C10 (cmds : List Compiler.Cmd) (trace : Bool) (indent : Int) (h : indent < 0) :
    Compiler.output cmds indent trace = Compiler.output cmds 0 trace := by
unfold Compiler.output
rw [Compiler.outputAux_indent_eq indent (le_of_lt h) trace cmds 0 0 false]

/-- Witness for C10: at indent width -1, on a one-command IR list with
trace on, the render equals the indent-0 render. -/
theorem claim_C10_witness :
    ((-1 : Int) < 0) ∧
    Compiler.output [Compiler.Cmd.declareChorus] (-1) true =
      Compiler.output [Compiler.Cmd.declareChorus] 0 true :=
⟨by decide, claim_C10 [Compiler.Cmd.declareChorus] true (-1) (by decide)⟩

theorem sanity_read_len : (Compiler.read []).length = 592 := by decide

/-- Counterexample for C1: in the IR lowered from the empty source, the
byte-to-char routine (the `IntToChar` definition) ends with the fallback
`Return \'$\'`, not the byte value 0 that the claim states (the two
fallbacks are the other way around). -/
theorem claim_C1_counterexample :
    Compiler.read [] =
      Compiler.defineCharToInt ++ Compiler.defineIntToChar ++
        [Compiler.Cmd.declareChorus] ++ Compiler.initVars
    ∧ Compiler.defineIntToChar.getLast? =
        some (Compiler.Cmd.ret (Compiler.Expr.literal (Compiler.Literal.char '$')))
    ∧ Compiler.Literal.char '$' ≠ Compiler.Literal.int 0 :=
⟨rfl, by decide, by decide⟩

/-- C1 as amended: in the IR emitted by lower, the byte-to-char routine's
unconditional fallback return is the character `$` and the char-to-byte
routine's fallback return is the byte value 0. -/
theorem claim_C1 (p : List Char) :
    Compiler.defineIntToChar.getLast? =
      some (Compiler.Cmd.ret (Compiler.Expr.literal (Compiler.Literal.char '$')))
    ∧ Compiler.defineCharToInt.getLast? =
        some (Compiler.Cmd.ret (Compiler.Expr.literal (Compiler.Literal.int 0)))
    ∧ Compiler.read p =
        Compiler.defineCharToInt ++ Compiler.defineIntToChar ++
          [Compiler.Cmd.declareChorus] ++ Compiler.initVars ++ p.flatMap Compiler.lowerChar := by
refine ⟨by decide, by decide, ?_⟩
rw [Compiler.read_eq]
rfl

/-- C3: the two emitted lookup tables are inverses on their domain — for
every character in the table set (newline and space through tilde), the
char-to-byte table maps it to the byte with its character code, and the
byte-to-char table maps that byte back to the character. -/
theorem claim_C3 (c : Char) (hc : c ∈ Compiler.tableChars) :
    Compiler.evalTable Compiler.defineCharToInt (Compiler.Literal.char c) =
      some (Compiler.Literal.int c.toNat)
    ∧ Compiler.evalTable Compiler.defineIntToChar (Compiler.Literal.int c.toNat) =
        some (Compiler.Literal.char c) := by
revert c
decide

/-- Witness for C3 at the character A (code 65). -/
theorem claim_C3_witness :
    ('A' ∈ Compiler.tableChars)
    ∧ Compiler.evalTable Compiler.defineCharToInt (Compiler.Literal.char 'A') =
        some (Compiler.Literal.int 65)
    ∧ Compiler.evalTable Compiler.defineIntToChar (Compiler.Literal.int 65) =
        some (Compiler.Literal.char 'A') :=
⟨by decide, claim_C3 'A' (by decide)⟩

/-- Counterexample for C4: the first command of the IR lowered from the
empty source is the definition header of `CharToInt` (the char-to-byte
routine), not of the byte-to-char routine that the claim puts first. -/
theorem claim_C4_counterexample :
    (Compiler.read []).head? =
      some (Compiler.Cmd.declareFn (Compiler.Func.charToInt Compiler.Var.temp))
    ∧ Compiler.Func.charToInt Compiler.Var.temp ≠ Compiler.Func.intToChar Compiler.Var.temp := by
exact ⟨by decide, by decide⟩

/-- C4 as amended: for every source text the IR begins with the fixed
preamble in this order: the char-to-byte routine definition, then the
byte-to-char routine definition, then the main-block marker, then the
variable initializations, all before any command translated from the
input. -/
theorem claim_C4 (p : List Char) :
    Compiler.read p =
      Compiler.defineCharToInt ++ Compiler.defineIntToChar ++
        [Compiler.Cmd.declareChorus] ++ Compiler.initVars ++ p.flatMap Compiler.lowerChar
    ∧ Compiler.defineCharToInt.head? =
        some (Compiler.Cmd.declareFn (Compiler.Func.charToInt Compiler.Var.temp))
    ∧ Compiler.defineIntToChar.head? =
        some (Compiler.Cmd.declareFn (Compiler.Func.intToChar Compiler.Var.temp)) := by
refine ⟨?_, by decide, by decide⟩
rw [Compiler.read_eq]
rfl

/-- C5: each `>` in the source lowers to exactly the five commands
(pointer increment, length into Temp, conditional on Pointer == Temp,
push of Zero onto Tape, end-if), and each `<` lowers to the single
pointer-decrement command with no bound check. -/
theorem claim_C5 (xs ys : List Char) :
    Compiler.read (xs ++ '>' :: ys) =
      Compiler.read xs ++
        [Compiler.Cmd.assign Compiler.Var.pointer (Compiler.Expr.inc Compiler.Var.pointer),
         Compiler.Cmd.call (Compiler.Func.arrayLength Compiler.Var.tape) Compiler.Var.temp,
         Compiler.Cmd.startCond (Compiler.Expr.isEqualVar Compiler.Var.pointer Compiler.Var.temp),
         Compiler.Cmd.call
           (Compiler.Func.arrayPush Compiler.Var.tape Compiler.Var.temp Compiler.Var.zero)
           Compiler.Var.tape,
         Compiler.Cmd.endIf] ++ ys.flatMap Compiler.lowerChar
    ∧ Compiler.read (xs ++ '<' :: ys) =
        Compiler.read xs ++
          [Compiler.Cmd.assign Compiler.Var.pointer (Compiler.Expr.dec Compiler.Var.pointer)] ++
          ys.flatMap Compiler.lowerChar := by
constructor
· rw [Compiler.read_append]
  rfl
· rw [Compiler.read_append]
  rfl

/-- Counterexample for C6: the IR of the empty source already contains a
call of ArrayPush (push-element) carrying three arguments, not the two
the claim states. -/
theorem claim_C6_counterexample :
    (Compiler.Cmd.call
        (Compiler.Func.arrayPush Compiler.Var.tape Compiler.Var.zero Compiler.Var.zero)
        Compiler.Var.tape) ∈ Compiler.read []
    ∧ Compiler.Func.arity
        (Compiler.Func.arrayPush Compiler.Var.tape Compiler.Var.zero Compiler.Var.zero) = 3
    ∧ (3 : Nat) ≠ 2 :=
⟨by decide, rfl, by decide⟩

/-- C6 as amended: every routine call in the IR emitted by lower has the
fixed arity of its routine name — ArrayReplace and ArrayPush three
arguments, ArrayPop two, ReadLine none, all others one. -/
theorem claim_C6 (p : List Char) (c : Compiler.Cmd) (hc : c ∈ Compiler.read p)
    (f : Compiler.Func) (hf : Compiler.cmdFunc c = some f) :
    Compiler.Func.arity f = Compiler.nameArity (Compiler.Func.name f) := by
have hok : Compiler.arityOk c = true := by
  rw [Compiler.read_eq] at hc
  rcases List.mem_append.1 hc with hpre | hbody
  · exact (by decide : ∀ x ∈ Compiler.preambleCmds, Compiler.arityOk x = true) c hpre
  · rcases List.mem_flatMap.1 hbody with ⟨ch, _, hcc⟩
    exact Compiler.arityOk_lowerChar ch c hcc
unfold Compiler.arityOk at hok
rw [hf] at hok
exact of_decide_eq_true hok

/-- Witness for C6 at the tape-initializing ArrayPush call of the empty
source's IR. -/
theorem claim_C6_witness :
    ((Compiler.Cmd.call
        (Compiler.Func.arrayPush Compiler.Var.tape Compiler.Var.zero Compiler.Var.zero)
        Compiler.Var.tape) ∈ Compiler.read [])
    ∧ Compiler.Func.arity
        (Compiler.Func.arrayPush Compiler.Var.tape Compiler.Var.zero Compiler.Var.zero) =
      Compiler.nameArity
        (Compiler.Func.name
          (Compiler.Func.arrayPush Compiler.Var.tape Compiler.Var.zero Compiler.Var.zero)) :=
⟨by decide,
 claim_C6 []
   (Compiler.Cmd.call
     (Compiler.Func.arrayPush Compiler.Var.tape Compiler.Var.zero Compiler.Var.zero)
     Compiler.Var.tape)
   (by decide)
   (Compiler.Func.arrayPush Compiler.Var.tape Compiler.Var.zero Compiler.Var.zero)
   rfl⟩

/-- Counterexample for C7: the IR lowered from the empty source does
contain conditional blocks — the lookup-table definitions of the fixed
preamble open one per table entry; here is the first of them. -/
theorem claim_C7_counterexample :
    (Compiler.Cmd.startCond
        (Compiler.Expr.isEqualLiteral Compiler.Var.temp (Compiler.Literal.char '\n')))
      ∈ Compiler.read [] := by
decide

/-- C7 as amended: the empty source lowers to exactly the fixed preamble
(the two table definitions, the main-block marker and the variable
initializations), with zero conditional blocks after the main-block
marker, and rendering it succeeds with the nesting depth back at 0. -/
theorem claim_C7 (indent : Int) (trace : Bool) :
    Compiler.read [] =
      Compiler.defineCharToInt ++ Compiler.defineIntToChar ++
        [Compiler.Cmd.declareChorus] ++ Compiler.initVars
    ∧ Compiler.initVars.countP
        (fun c => match c with | Compiler.Cmd.startCond _ => true | _ => false) = 0
    ∧ (Compiler.output (Compiler.read []) indent trace).isOk = true
    ∧ Compiler.scanLevel (Compiler.read []) 0 = some 0 := by
refine ⟨rfl, by decide, ?_, by decide⟩
rw [Compiler.output_isOk]
decide

namespace MainSrc

lemma mainReadLoop_eq (p : List Char) : ∀ cmds, readLoop cmds p = cmds ++ p.flatMap lowerChar := by
induction p with
| nil => intro cmds; simp [readLoop]
| cons c cs ih => intro cmds; simp [readLoop, ih, List.flatMap_cons, List.append_assoc]

lemma mainRead_eq (p : List Char) : read p = initVars ++ p.flatMap lowerChar :=
mainReadLoop_eq p initVars

lemma count_endIf_lowerChar (c : Char) :
    (lowerChar c).count Cmd.endIf =
      ((if c = ']' then 1 else 0) + (if c = ',' then 1 else 0)) := by
by_cases h1 : c = '>'
· subst h1; decide
· by_cases h2 : c = '<'
  · subst h2; decide
  · by_cases h3 : c = '+'
    · subst h3; decide
    · by_cases h4 : c = '-'
      · subst h4; decide
      · by_cases h5 : c = '.'
        · subst h5; decide
        · by_cases h6 : c = ','
          · subst h6; decide
          · by_cases h7 : c = '['
            · subst h7; decide
            · by_cases h8 : c = ']'
              · subst h8; decide
              · simp [lowerChar, h1, h2, h3, h4, h5, h6, h7, h8]

lemma count_endIf_flatMap (p : List Char) :
    (p.flatMap lowerChar).count Cmd.endIf = p.count ']' + p.count ',' := by
induction p with
| nil => rfl
| cons c cs ih =>
    rw [List.flatMap_cons, List.count_append, ih, count_endIf_lowerChar,
      List.count_cons, List.count_cons]
    by_cases h1 : c = ']' <;> by_cases h2 : c = ',' <;>
      simp [h1, h2] <;> omega

end MainSrc

/-- C9: the self-contained compiler of main.rs never reports unbalanced
brackets: its renderer always succeeds, its error type has only the
formatting variant, the lowered IR carries one end-if command per source
close bracket (plus one per read instruction), and at least one close
line is emitted per source close bracket regardless of any matching
open. -/
theorem claim_C9 (p : List Char) :
    (MainSrc.output (MainSrc.read p)).isOk = true
    ∧ (MainSrc.read p).count MainSrc.Cmd.endIf = p.count ']' + p.count ','
    ∧ p.count ']' ≤
        (MainSrc.outputLines (MainSrc.read p)).count "We know the game and we're gonna play it"
    ∧ (∀ e : MainSrc.CompilerError, e = MainSrc.CompilerError.formatError) := by
have hcount : (MainSrc.read p).count MainSrc.Cmd.endIf = p.count ']' + p.count ',' := by
  rw [MainSrc.mainRead_eq, List.count_append, MainSrc.count_endIf_flatMap,
    show MainSrc.initVars.count MainSrc.Cmd.endIf = 0 from rfl]
  omega
refine ⟨rfl, hcount, ?_, fun e => by cases e; rfl⟩
have h1 : (MainSrc.read p).count MainSrc.Cmd.endIf ≤
    ((MainSrc.read p).map MainSrc.cmdLine).count (MainSrc.cmdLine MainSrc.Cmd.endIf) :=
  List.count_le_count_map _ _ _
have h2 : MainSrc.cmdLine MainSrc.Cmd.endIf = "We know the game and we're gonna play it" := rfl
rw [h2] at h1
have h3 : ((MainSrc.read p).map MainSrc.cmdLine).count
      "We know the game and we're gonna play it" ≤
    (MainSrc.outputLines (MainSrc.read p)).count
      "We know the game and we're gonna play it" := by
  unfold MainSrc.outputLines
  rw [List.count_cons]
  omega
omega

namespace Compiler

lemma except_map_map {ε α β γ : Type} (f : α → β) (g : β → γ) (x : Except ε α) :
    (x.map f).map g = x.map (fun a => g (f a)) := by
cases x <;> rfl

lemma isPrefixOf_self_append (p t : List Char) : (p.isPrefixOf (p ++ t)) = true := by
induction p with
| nil => simp [List.isPrefixOf]
| cons x xs ih => simp [List.isPrefixOf, ih]

lemma isPrefixOf_append_false (p : List Char) : ∀ (a t : List Char),
    p.isPrefixOf a = false → a.isPrefixOf p = false → p.isPrefixOf (a ++ t) = false := by
induction p with
| nil => intro a t h1 h2; simp [List.isPrefixOf] at h1
| cons x xs ih =>
    intro a t h1 h2
    cases a with
    | nil => simp [List.isPrefixOf] at h2
    | cons y ys =>
        simp only [List.cons_append, List.isPrefixOf, Bool.and_eq_false_iff] at h1 h2 ⊢
        by_cases hxy : x = y
        · subst hxy
          rcases h1 with h1 | h1
          · simp at h1
          · rcases h2 with h2 | h2
            · simp at h2
            · exact Or.inr (ih ys t h1 h2)
        · exact Or.inl (by simp [hxy])

lemma dropWhile_replicate_append (n : Nat) (l : List Char) :
    (List.replicate n ' ' ++ l).dropWhile (fun a => a = ' ') =
      l.dropWhile (fun a => a = ' ') := by
induction n with
| zero => rfl
| succ m ih => simp [List.replicate_succ, List.dropWhile_cons, ih]

lemma dropWhile_append_eq (l r : List Char) (hne : l ≠ [])
    (h : l.dropWhile (fun a => a = ' ') = l) :
    (l ++ r).dropWhile (fun a => a = ' ') = l ++ r := by
cases l with
| nil => exact absurd rfl hne
| cons c cs =>
    have hc : ¬(c = ' ') := by
      rw [List.dropWhile_cons] at h
      by_cases hc : c = ' '
      · rw [if_pos (by simp [hc])] at h
        have hlen := congrArg List.length h
        have hle : (List.dropWhile (fun a => a = ' ') cs).length ≤ cs.length :=
          List.Sublist.length_le (List.dropWhile_sublist (fun a => decide (a = ' ')))
        simp at hlen
        omega
      · exact hc
    simp [List.dropWhile_cons, hc]

lemma isTraceLine_spaces (level : Nat) (indent : Int) (s : String) :
    isTraceLine (indentSpaces level indent ++ s) = isTraceLine s := by
unfold isTraceLine indentSpaces
rw [String.data_append]
show ("Never gonna say ".data.isPrefixOf
  ((List.replicate ((level * indent).toNat) ' ' ++ s.data).dropWhile (fun a => a = ' '))) = _
rw [dropWhile_replicate_append]

lemma notTrace_of_head (a t : String)
    (h1 : "Never gonna say ".data.isPrefixOf a.data = false)
    (h2 : a.data.isPrefixOf "Never gonna say ".data = false)
    (h3 : a.data.dropWhile (fun x => x = ' ') = a.data)
    (h4 : a.data ≠ []) :
    isTraceLine (a ++ t) = false := by
unfold isTraceLine
rw [String.data_append, dropWhile_append_eq _ _ h4 h3]
exact isPrefixOf_append_false _ _ _ h1 h2

lemma isTraceLine_trace (s : String) :
    isTraceLine ("Never gonna say " ++ s) = true := by
unfold isTraceLine
rw [String.data_append, dropWhile_append_eq _ _ (by decide) (by decide)]
exact isPrefixOf_self_append _ _

lemma filter_tracePre (trace inCh : Bool) (level : Nat) (indent : Int) (ln : Nat) :
    (tracePre trace inCh level indent ln).filter (fun l => !(isTraceLine l)) = [] := by
unfold tracePre
by_cases h : trace && inCh
· rw [if_pos h]
  have ht : isTraceLine (indentSpaces level indent ++ "Never gonna say " ++ toString ln) = true := by
    rw [String.append_assoc, isTraceLine_spaces]
    exact isTraceLine_trace _
  simp [List.filter_cons, ht]
· rw [if_neg h]
  rfl

end Compiler

namespace Compiler

lemma isTraceLine_traceLine (level : Nat) (indent : Int) (ln : Nat) :
    isTraceLine (indentSpaces level indent ++ "Never gonna say " ++ toString ln) = true := by
rw [String.append_assoc, isTraceLine_spaces]
exact isTraceLine_trace _

lemma outputAux_filter (indent : Int) :
    ∀ (cmds : List Cmd) (ln level : Nat) (inCh : Bool),
      (outputAux indent true cmds ln level inCh).map
          (List.filter (fun l => !(isTraceLine l)))
        = outputAux indent false cmds ln level inCh := by
intro cmds
induction cmds with
| nil =>
    intro ln level inCh
    by_cases h : level = 0 <;> simp [outputAux, h, Except.map]
| cons c cs ih =>
    intro ln level inCh
    cases c
    case declareVar v =>
      have hl : isTraceLine
          (indentSpaces level indent ++ "Never gonna let " ++ Var.toStr v ++ " down") = false := by
        simp only [String.append_assoc]
        rw [isTraceLine_spaces]
        exact notTrace_of_head _ _ (by decide) (by decide) (by decide) (by decide)
      simp only [outputAux]
      rw [← ih]
      cases outputAux indent true cs (ln + 1) level inCh with
      | error e => rfl
      | ok rest =>
          simp [Except.map, List.filter_append, filter_tracePre, List.filter_cons, hl, tracePre, isTraceLine_traceLine]
    case declareFn f =>
      have hl1 : isTraceLine
          (indentSpaces level indent ++ "[Verse " ++ Func.name f ++ "]") = false := by
        simp only [String.append_assoc]
        rw [isTraceLine_spaces]
        exact notTrace_of_head _ _ (by decide) (by decide) (by decide) (by decide)
      have hl2 : isTraceLine ("(Ooh give you " ++ Func.args f ++ ")") = false := by
        simp only [String.append_assoc]
        exact notTrace_of_head _ _ (by decide) (by decide) (by decide) (by decide)
      simp only [outputAux]
      rw [← ih]
      cases outputAux indent true cs (ln + 1) level inCh with
      | error e => rfl
      | ok rest =>
          simp [Except.map, List.filter_append, filter_tracePre, List.filter_cons, hl1, hl2, tracePre, isTraceLine_traceLine]
    case ret e =>
      have hl : isTraceLine
          (indentSpaces level indent ++
            "(Ooh) Never gonna give, never gonna give (give you " ++ Expr.toStr e ++ ")") = false := by
        simp only [String.append_assoc]
        rw [isTraceLine_spaces]
        exact notTrace_of_head _ _ (by decide) (by decide) (by decide) (by decide)
      simp only [outputAux]
      rw [← ih]
      cases outputAux indent true cs (ln + 1) level inCh with
      | error e2 => rfl
      | ok rest =>
          simp [Except.map, List.filter_append, filter_tracePre, List.filter_cons, hl, tracePre, isTraceLine_traceLine]
    case declareChorus =>
      have hl : isTraceLine (indentSpaces level indent ++ "[Chorus]") = false := by
        rw [isTraceLine_spaces]
        decide
      simp only [outputAux]
      rw [← ih]
      cases outputAux indent true cs (ln + 1) level true with
      | error e => rfl
      | ok rest =>
          simp [Except.map, List.filter_append, filter_tracePre, List.filter_cons, hl, tracePre, isTraceLine_traceLine]
    case assign v e =>
      have hl : isTraceLine
          (indentSpaces level indent ++ "Never gonna give " ++ Var.toStr v ++ " " ++ Expr.toStr e) = false := by
        simp only [String.append_assoc]
        rw [isTraceLine_spaces]
        exact notTrace_of_head _ _ (by decide) (by decide) (by decide) (by decide)
      simp only [outputAux]
      rw [← ih]
      cases outputAux indent true cs (ln + 1) level inCh with
      | error e2 => rfl
      | ok rest =>
          simp [Except.map, List.filter_append, filter_tracePre, List.filter_cons, hl, tracePre, isTraceLine_traceLine]
    case call f v =>
      have hl : isTraceLine
          (indentSpaces level indent ++ "(Ooh give you " ++ Var.toStr v ++ ") " ++
            "Never gonna run " ++ Func.name f ++ " and desert " ++ Func.args f) = false := by
        simp only [String.append_assoc]
        rw [isTraceLine_spaces]
        exact notTrace_of_head _ _ (by decide) (by decide) (by decide) (by decide)
      simp only [outputAux]
      rw [← ih]
      cases outputAux indent true cs (ln + 1) level inCh with
      | error e => rfl
      | ok rest =>
          simp [Except.map, List.filter_append, filter_tracePre, List.filter_cons, hl, tracePre, isTraceLine_traceLine]
    case callNoReturn f =>
      have hl : isTraceLine
          (indentSpaces level indent ++ "Never gonna run " ++ Func.name f ++ " and desert " ++ Func.args f) = false := by
        simp only [String.append_assoc]
        rw [isTraceLine_spaces]
        exact notTrace_of_head _ _ (by decide) (by decide) (by decide) (by decide)
      simp only [outputAux]
      rw [← ih]
      cases outputAux indent true cs (ln + 1) level inCh with
      | error e => rfl
      | ok rest =>
          simp [Except.map, List.filter_append, filter_tracePre, List.filter_cons, hl, tracePre, isTraceLine_traceLine]
    case startCond e =>
      have hl : isTraceLine
          (indentSpaces level indent ++ "Inside we both know " ++ Expr.toStr e) = false := by
        simp only [String.append_assoc]
        rw [isTraceLine_spaces]
        exact notTrace_of_head _ _ (by decide) (by decide) (by decide) (by decide)
      simp only [outputAux]
      rw [← ih]
      cases outputAux indent true cs (ln + 1) (level + 1) inCh with
      | error e2 => rfl
      | ok rest =>
          simp [Except.map, List.filter_append, filter_tracePre, List.filter_cons, hl, tracePre, isTraceLine_traceLine]
    case endIf =>
      by_cases h0 : level = 0
      · simp [outputAux, h0, Except.map]
      · have hl : isTraceLine
            (indentSpaces (level - 1) indent ++
              "Your heart's been aching but you're too shy to say it") = false := by
          rw [isTraceLine_spaces]
          decide
        simp only [outputAux, if_neg h0]
        rw [← ih]
        cases outputAux indent true cs (ln + 1) (level - 1) inCh with
        | error e => rfl
        | ok rest =>
            simp [Except.map, List.filter_append, filter_tracePre, List.filter_cons, hl, tracePre, isTraceLine_traceLine]
    case endWhile =>
      by_cases h0 : level = 0
      · simp [outputAux, h0, Except.map]
      · have hl : isTraceLine
            (indentSpaces (level - 1) indent ++
              "We know the game and we're gonna play it") = false := by
          rw [isTraceLine_spaces]
          decide
        simp only [outputAux, if_neg h0]
        rw [← ih]
        cases outputAux indent true cs (ln + 1) (level - 1) inCh with
        | error e => rfl
        | ok rest =>
            simp [Except.map, List.filter_append, filter_tracePre, List.filter_cons, hl, tracePre, isTraceLine_traceLine]

end Compiler

namespace Compiler

lemma noNL_dec (s : String) (h : decide (('\n' : Char) ∈ s.data) = false) : noNL s :=
of_decide_eq_false h

lemma noNL_append (a b : String) (ha : noNL a) (hb : noNL b) : noNL (a ++ b) := by
intro h
rw [String.data_append] at h
rcases List.mem_append.1 h with h | h
· exact ha h
· exact hb h

lemma noNL_spaces (level : Nat) (indent : Int) : noNL (indentSpaces level indent) := by
intro h
have h2 : ('\n' : Char) ∈ List.replicate ((level * indent).toNat) ' ' := h
rw [List.mem_replicate] at h2
exact absurd h2.2 (by decide)

lemma digitChar_ne_newline (d : Nat) : Nat.digitChar d ≠ '\n' := by
match d with
| 0 | 1 | 2 | 3 | 4 | 5 | 6 | 7 | 8 | 9 | 10 | 11 | 12 | 13 | 14 | 15 => decide
| n + 16 =>
  unfold Nat.digitChar
  repeat rw [if_neg (by omega)]
  decide

lemma toDigitsCore_mem (b : Nat) : ∀ (fuel n : Nat) (acc : List Char) (c : Char),
    c ∈ Nat.toDigitsCore b fuel n acc → c ∈ acc ∨ ∃ d, c = Nat.digitChar d := by
intro fuel
induction fuel with
| zero =>
    intro n acc c hc
    simp only [Nat.toDigitsCore] at hc
    exact Or.inl hc
| succ m ih =>
    intro n acc c hc
    simp only [Nat.toDigitsCore] at hc
    by_cases h : n / b = 0
    · rw [if_pos h] at hc
      rcases List.mem_cons.1 hc with h1 | h1
      · exact Or.inr ⟨n % b, h1⟩
      · exact Or.inl h1
    · rw [if_neg h] at hc
      rcases ih _ _ _ hc with h1 | h1
      · rcases List.mem_cons.1 h1 with h2 | h2
        · exact Or.inr ⟨n % b, h2⟩
        · exact Or.inl h2
      · exact Or.inr h1

lemma noNL_natToString (n : Nat) : noNL (toString n) := by
intro hmem
have hmem2 : ('\n' : Char) ∈ Nat.toDigitsCore 10 (n + 1) n [] := hmem
rcases toDigitsCore_mem 10 (n + 1) n [] '\n' hmem2 with h | ⟨d, hd⟩
· simp at h
· exact digitChar_ne_newline d hd.symm

lemma noNL_var (v : Var) : noNL (Var.toStr v) := by
cases v <;> exact noNL_dec _ (by decide)

lemma noNL_lit (l : Literal) : noNL (Literal.toStr l) := by
cases l with
| int i => exact noNL_natToString i
| emptyArray => exact noNL_dec _ (by decide)
| char c =>
    simp only [Literal.toStr]
    split_ifs with h1 h2 h3
    · exact noNL_dec _ (by decide)
    · exact noNL_dec _ (by decide)
    · exact noNL_dec _ (by decide)
    · intro hmem
      rw [String.data_append, String.data_append] at hmem
      rcases List.mem_append.1 hmem with h | h
      · rcases List.mem_append.1 h with h | h
        · simp at h
        · have h5 : ('\n' : Char) ∈ [c] := h
          simp at h5
          exact h1 h5.symm
      · simp at h

lemma noNL_expr (e : Expr) : noNL (Expr.toStr e) := by
cases e with
| inc v => exact noNL_append _ _ (noNL_var v) (noNL_dec _ (by decide))
| dec v => exact noNL_append _ _ (noNL_var v) (noNL_dec _ (by decide))
| arrayAccess a i =>
    exact noNL_append _ _ (noNL_append _ _ (noNL_var a) (noNL_dec _ (by decide))) (noNL_var i)
| isEqualLiteral v l =>
    exact noNL_append _ _ (noNL_append _ _ (noNL_var v) (noNL_dec _ (by decide))) (noNL_lit l)
| isNotEqualLiteral v l =>
    exact noNL_append _ _ (noNL_append _ _ (noNL_var v) (noNL_dec _ (by decide))) (noNL_lit l)
| isEqualVar v v2 =>
    exact noNL_append _ _ (noNL_append _ _ (noNL_var v) (noNL_dec _ (by decide))) (noNL_var v2)
| literal l => exact noNL_lit l

lemma noNL_funcName (f : Func) : noNL (Func.name f) := by
cases f <;> simp only [Func.name] <;> exact noNL_dec _ (by decide)

lemma noNL_funcArgs (f : Func) : noNL (Func.args f) := by
cases f with
| arrayReplace a b c =>
    simp only [Func.args]
    exact noNL_append _ _
      (noNL_append _ _
        (noNL_append _ _
          (noNL_append _ _ (noNL_var a) (noNL_dec _ (by decide)))
          (noNL_var b))
        (noNL_dec _ (by decide)))
      (noNL_var c)
| arrayPush a b c =>
    simp only [Func.args]
    exact noNL_append _ _
      (noNL_append _ _
        (noNL_append _ _
          (noNL_append _ _ (noNL_var a) (noNL_dec _ (by decide)))
          (noNL_var b))
        (noNL_dec _ (by decide)))
      (noNL_var c)
| arrayPop a b =>
    simp only [Func.args]
    exact noNL_append _ _ (noNL_append _ _ (noNL_var a) (noNL_dec _ (by decide))) (noNL_var b)
| arrayLength v => exact noNL_var v
| charToInt v => exact noNL_var v
| intToChar v => exact noNL_var v
| putChar v => exact noNL_var v
| readLine => exact noNL_dec _ (by decide)

lemma noNL_tracePre (trace inCh : Bool) (level : Nat) (indent : Int) (ln : Nat) :
    ∀ l ∈ tracePre trace inCh level indent ln, noNL l := by
intro l hl
unfold tracePre at hl
by_cases h : trace && inCh
· rw [if_pos h] at hl
  have : l = indentSpaces level indent ++ "Never gonna say " ++ toString ln := by
    simpa using hl
  subst this
  exact noNL_append _ _
    (noNL_append _ _ (noNL_spaces level indent) (noNL_dec _ (by decide)))
    (noNL_natToString ln)
· rw [if_neg h] at hl
  simp at hl

end Compiler

namespace Compiler

lemma map_eq_ok {ε α β : Type} (f : α → β) (x : Except ε α) (b : β)
    (h : x.map f = Except.ok b) : ∃ a, x = Except.ok a ∧ b = f a := by
cases x with
| error e => simp [Except.map] at h
| ok a =>
    refine ⟨a, rfl, ?_⟩
    simp only [Except.map, Except.ok.injEq] at h
    exact h.symm

lemma outputAux_noNL (indent : Int) (trace : Bool) :
    ∀ (cmds : List Cmd) (ln level : Nat) (inCh : Bool) (ls : List String),
      outputAux indent trace cmds ln level inCh = Except.ok ls →
      ∀ l ∈ ls, noNL l := by
intro cmds
induction cmds with
| nil =>
    intro ln level inCh ls h
    by_cases h0 : level = 0
    · simp only [outputAux, if_pos h0, Except.ok.injEq] at h
      subst h
      intro l hl
      simp at hl
    · simp only [outputAux, if_neg h0] at h
      cases h
| cons c cs ih =>
    intro ln level inCh ls h
    cases c
    case declareVar v =>
      simp only [outputAux] at h
      obtain ⟨rest, haux, rfl⟩ := map_eq_ok _ _ _ h
      intro l hl
      rcases List.mem_append.1 hl with h1 | h1
      · rcases List.mem_append.1 h1 with h2 | h2
        · exact noNL_tracePre _ _ _ _ _ l h2
        · rw [List.mem_singleton] at h2
          subst h2
          repeat' apply noNL_append
          all_goals
            first
            | exact noNL_spaces _ _
            | exact noNL_var _
            | exact noNL_dec _ (by decide)
      · exact ih _ _ _ _ haux l h1
    case declareFn f =>
      simp only [outputAux] at h
      obtain ⟨rest, haux, rfl⟩ := map_eq_ok _ _ _ h
      intro l hl
      rcases List.mem_append.1 hl with h1 | h1
      · rcases List.mem_append.1 h1 with h2 | h2
        · exact noNL_tracePre _ _ _ _ _ l h2
        · rcases List.mem_cons.1 h2 with h3 | h3
          · subst h3
            repeat' apply noNL_append
            all_goals
              first
              | exact noNL_spaces _ _
              | exact noNL_funcName _
              | exact noNL_dec _ (by decide)
          · rw [List.mem_singleton] at h3
            subst h3
            repeat' apply noNL_append
            all_goals
              first
              | exact noNL_funcArgs _
              | exact noNL_dec _ (by decide)
      · exact ih _ _ _ _ haux l h1
    case ret e =>
      simp only [outputAux] at h
      obtain ⟨rest, haux, rfl⟩ := map_eq_ok _ _ _ h
      intro l hl
      rcases List.mem_append.1 hl with h1 | h1
      · rcases List.mem_append.1 h1 with h2 | h2
        · exact noNL_tracePre _ _ _ _ _ l h2
        · rw [List.mem_singleton] at h2
          subst h2
          repeat' apply noNL_append
          all_goals
            first
            | exact noNL_spaces _ _
            | exact noNL_expr _
            | exact noNL_dec _ (by decide)
      · exact ih _ _ _ _ haux l h1
    case declareChorus =>
      simp only [outputAux] at h
      obtain ⟨rest, haux, rfl⟩ := map_eq_ok _ _ _ h
      intro l hl
      rcases List.mem_append.1 hl with h1 | h1
      · rcases List.mem_append.1 h1 with h2 | h2
        · exact noNL_tracePre _ _ _ _ _ l h2
        · rw [List.mem_singleton] at h2
          subst h2
          repeat' apply noNL_append
          all_goals
            first
            | exact noNL_spaces _ _
            | exact noNL_dec _ (by decide)
      · exact ih _ _ _ _ haux l h1
    case assign v e =>
      simp only [outputAux] at h
      obtain ⟨rest, haux, rfl⟩ := map_eq_ok _ _ _ h
      intro l hl
      rcases List.mem_append.1 hl with h1 | h1
      · rcases List.mem_append.1 h1 with h2 | h2
        · exact noNL_tracePre _ _ _ _ _ l h2
        · rw [List.mem_singleton] at h2
          subst h2
          repeat' apply noNL_append
          all_goals
            first
            | exact noNL_spaces _ _
            | exact noNL_var _
            | exact noNL_expr _
            | exact noNL_dec _ (by decide)
      · exact ih _ _ _ _ haux l h1
    case call f v =>
      simp only [outputAux] at h
      obtain ⟨rest, haux, rfl⟩ := map_eq_ok _ _ _ h
      intro l hl
      rcases List.mem_append.1 hl with h1 | h1
      · rcases List.mem_append.1 h1 with h2 | h2
        · exact noNL_tracePre _ _ _ _ _ l h2
        · rw [List.mem_singleton] at h2
          subst h2
          repeat' apply noNL_append
          all_goals
            first
            | exact noNL_spaces _ _
            | exact noNL_var _
            | exact noNL_funcName _
            | exact noNL_funcArgs _
            | exact noNL_dec _ (by decide)
      · exact ih _ _ _ _ haux l h1
    case callNoReturn f =>
      simp only [outputAux] at h
      obtain ⟨rest, haux, rfl⟩ := map_eq_ok _ _ _ h
      intro l hl
      rcases List.mem_append.1 hl with h1 | h1
      · rcases List.mem_append.1 h1 with h2 | h2
        · exact noNL_tracePre _ _ _ _ _ l h2
        · rw [List.mem_singleton] at h2
          subst h2
          repeat' apply noNL_append
          all_goals
            first
            | exact noNL_spaces _ _
            | exact noNL_funcName _
            | exact noNL_funcArgs _
            | exact noNL_dec _ (by decide)
      · exact ih _ _ _ _ haux l h1
    case startCond e =>
      simp only [outputAux] at h
      obtain ⟨rest, haux, rfl⟩ := map_eq_ok _ _ _ h
      intro l hl
      rcases List.mem_append.1 hl with h1 | h1
      · rcases List.mem_append.1 h1 with h2 | h2
        · exact noNL_tracePre _ _ _ _ _ l h2
        · rw [List.mem_singleton] at h2
          subst h2
          repeat' apply noNL_append
          all_goals
            first
            | exact noNL_spaces _ _
            | exact noNL_expr _
            | exact noNL_dec _ (by decide)
      · exact ih _ _ _ _ haux l h1
    case endIf =>
      by_cases h0 : level = 0
      · simp only [outputAux, if_pos h0] at h
        cases h
      · simp only [outputAux, if_neg h0] at h
        obtain ⟨rest, haux, rfl⟩ := map_eq_ok _ _ _ h
        intro l hl
        rcases List.mem_append.1 hl with h1 | h1
        · rcases List.mem_append.1 h1 with h2 | h2
          · exact noNL_tracePre _ _ _ _ _ l h2
          · rw [List.mem_singleton] at h2
            subst h2
            repeat' apply noNL_append
            all_goals
              first
              | exact noNL_spaces _ _
              | exact noNL_dec _ (by decide)
        · exact ih _ _ _ _ haux l h1
    case endWhile =>
      by_cases h0 : level = 0
      · simp only [outputAux, if_pos h0] at h
        cases h
      · simp only [outputAux, if_neg h0] at h
        obtain ⟨rest, haux, rfl⟩ := map_eq_ok _ _ _ h
        intro l hl
        rcases List.mem_append.1 hl with h1 | h1
        · rcases List.mem_append.1 h1 with h2 | h2
          · exact noNL_tracePre _ _ _ _ _ l h2
          · rw [List.mem_singleton] at h2
            subst h2
            repeat' apply noNL_append
            all_goals
              first
              | exact noNL_spaces _ _
              | exact noNL_dec _ (by decide)
        · exact ih _ _ _ _ haux l h1

end Compiler

namespace Compiler

lemma mk_data (s : String) : String.mk s.data = s := by
cases s
rfl

lemma removeTraceAux_cons (buf : List Char) (c : Char) (cs : List Char) (h : ¬(c = '\n')) :
    removeTraceAux buf (c :: cs) = removeTraceAux (c :: buf) cs := by
conv_lhs => rw [removeTraceAux.eq_def]
split
· simp_all
· rename_i heq
  injection heq with h1 h2
  exact absurd h1 h
· rename_i heq
  injection heq with h1 h2
  subst h1
  subst h2
  rfl

lemma removeTraceAux_run : ∀ (l : List Char), (∀ x ∈ l, ¬(x = '\n')) → ∀ (r buf : List Char),
    removeTraceAux buf (l ++ '\n' :: r) =
      (if isTraceLine (String.mk (buf.reverse ++ l)) then [] else (buf.reverse ++ l) ++ ['\n']) ++
        removeTraceAux [] r := by
intro l
induction l with
| nil =>
    intro _ r buf
    show removeTraceAux buf ('\n' :: r) = _
    simp only [removeTraceAux]
    simp
| cons x xs ih =>
    intro hx r buf
    have hxn : ¬(x = '\n') := hx x (by simp)
    rw [List.cons_append, removeTraceAux_cons _ _ _ hxn]
    rw [ih (fun y hy => hx y (by simp [hy])) r (x :: buf)]
    simp [List.append_assoc]

lemma removeTrace_joinLines : ∀ ls : List String, (∀ l ∈ ls, noNL l) →
    removeTraceLines (joinLines ls) =
      joinLines (ls.filter (fun l => !(isTraceLine l))) := by
intro ls
induction ls with
| nil => intro _; rfl
| cons l ls ih =>
    intro hn
    unfold removeTraceLines
    have hdata : (joinLines (l :: ls)).data = l.data ++ '\n' :: (joinLines ls).data := by
      show (l ++ "\n" ++ joinLines ls).data = _
      rw [String.data_append, String.data_append]
      simp
    rw [hdata]
    rw [removeTraceAux_run l.data
      (fun x hx he => hn l (by simp) (he ▸ hx)) ((joinLines ls).data) []]
    simp only [List.reverse_nil, List.nil_append]
    rw [mk_data]
    have hrest : String.mk (removeTraceAux [] (joinLines ls).data) =
        joinLines (ls.filter (fun l => !(isTraceLine l))) := by
      show removeTraceLines (joinLines ls) = _
      exact ih (fun x hx => hn x (by simp [hx]))
    have hrest2 : removeTraceAux [] (joinLines ls).data =
        (joinLines (ls.filter (fun l => !(isTraceLine l)))).data := by
      rw [← hrest]
    by_cases ht : isTraceLine l
    · rw [if_pos ht]
      rw [List.nil_append, hrest2, mk_data]
      simp [List.filter_cons, ht]
    · rw [if_neg ht]
      have hfil : (l :: ls).filter (fun l => !(isTraceLine l)) =
          l :: ls.filter (fun l => !(isTraceLine l)) := by
        simp [List.filter_cons, ht]
      rw [hfil]
      have hd2 : (joinLines (l :: ls.filter (fun l => !(isTraceLine l)))).data =
          l.data ++ '\n' :: (joinLines (ls.filter (fun l => !(isTraceLine l)))).data := by
        show (l ++ "\n" ++ _).data = _
        rw [String.data_append, String.data_append]
        simp
      rw [← mk_data (joinLines (l :: ls.filter (fun l => !(isTraceLine l)))), hd2, hrest2]
      simp [List.append_assoc]

end Compiler

/-- C8: for every IR list and indent width, rendering with trace on,
then removing all trace-comment lines, yields exactly the trace-off
render, and the two renders have the same success or failure outcome. -/
theorem claim_C8 (cmds : List Compiler.Cmd) (indent : Int) :
    Except.map Compiler.removeTraceLines (Compiler.output cmds indent true) =
      Compiler.output cmds indent false
    ∧ (Compiler.output cmds indent true).isOk = (Compiler.output cmds indent false).isOk := by
constructor
· unfold Compiler.output
  rw [Compiler.except_map_map]
  rw [← Compiler.outputAux_filter indent cmds 0 0 false]
  rw [Compiler.except_map_map]
  cases haux : Compiler.outputAux indent true cmds 0 0 false with
  | error e => rfl
  | ok ls =>
      simp only [Except.map, Except.ok.injEq]
      exact Compiler.removeTrace_joinLines ls
        (Compiler.outputAux_noNL indent true cmds 0 0 false ls haux)
· by_cases hs : Compiler.scanLevel cmds 0 = some 0
  · rw [(Compiler.output_isOk cmds indent true).mpr hs,
      (Compiler.output_isOk cmds indent false).mpr hs]
  · rw [Compiler.output_err cmds indent true hs, Compiler.output_err cmds indent false hs]
